import Mathlib

/-!
Verification of the MCADV narrative session engine (src/adventure_bot.py and
src/utils/chunking.py) against its natural-language specification.

Python strings are modelled as `List Char`; Python `time.time()` is modelled
as an explicit `Nat` clock threaded through the stateful operations; the
Ollama backend call is modelled as an `Option Text` oracle parameter (the
text it returned, or `none` for any failure).  Python dicts are modelled as
association lists.
-/

set_option autoImplicit false
set_option maxRecDepth 20000

namespace MCADV

/-- A Python string, modelled as its list of characters. -/
abbrev Text := List Char

/-- Coercion from Lean string literals to the `Text` model. -/
def str (s : String) : Text := s.data

/-! ### Decimal rendering of naturals

Models the Python f-string conversion `f"{n}"` of a non-negative integer,
as used by `_send_reply` to build part-indicator suffixes such as " (2/3)".
The accumulator-based loop peels decimal digits from the right; `fuel`
bounds the recursion (any `fuel > n` is enough, since `n` shrinks by a
factor of ten each step). -/

def natReprAux : Nat → Nat → Text → Text
  | 0, _, acc => acc
  | fuel + 1, n, acc =>
      let d := Char.ofNat (48 + n % 10)
      if n / 10 = 0 then d :: acc else natReprAux fuel (n / 10) (d :: acc)

/-- Decimal representation of `n`, e.g. `natRepr 42 = str "42"`. -/
def natRepr (n : Nat) : Text := natReprAux (n + 1) n []

/-- The part-indicator suffix `f" ({i}/{n})"` appended by `_send_reply`
(src/adventure_bot.py line 478). -/
def partSuffix (i n : Nat) : Text :=
  str " (" ++ natRepr i ++ str "/" ++ natRepr n ++ str ")"

/-! ### The chunking loop of `_send_reply`

src/adventure_bot.py lines 454-459 and 469-474:
```
chunks = []
remaining = text
while remaining:
    chunks.append(remaining[:chunk_size])
    remaining = remaining[chunk_size:]
```
The loop terminates whenever `chunk_size >= 1` (with `chunk_size = 0` the
Python loop would not terminate; every theorem below assumes an effective
maximum length of at least 12, which keeps both passes' chunk sizes
positive).  `fuel` bounds the iteration count; `remaining.length` suffices. -/

def chunksOfAux (size : Nat) : Nat → Text → List Text
  | 0, _ => []
  | _ + 1, [] => []
  | fuel + 1, a :: t => (a :: t).take size :: chunksOfAux size fuel ((a :: t).drop size)

/-- The `while remaining:` slicing loop of `_send_reply`. -/
def pyChunks (size : Nat) (l : Text) : List Text := chunksOfAux size l.length l

/-- The two-pass chunk-size resolution of `_send_reply`
(src/adventure_bot.py lines 448-474), for the already-long case.  Returns the
final chunk list together with the final `chunk_size` variable
(`effective_max_len` minus the final suffix width). -/
def splitChunks (text : Text) (effectiveMaxLen : Nat) : List Text × Nat :=
  let suffixSpace := 11
  let chunkSize := effectiveMaxLen - suffixSpace
  let chunks := pyChunks chunkSize text
  let totalParts := chunks.length
  if totalParts < 100 then
    let actualSuffixSpace := (partSuffix totalParts totalParts).length
    if actualSuffixSpace < suffixSpace then
      (pyChunks (effectiveMaxLen - actualSuffixSpace) text, effectiveMaxLen - actualSuffixSpace)
    else (chunks, chunkSize)
  else (chunks, chunkSize)

/-- Python's `enumerate(xs, start)`. -/
def pyEnumerate (start : Nat) : (l : List Text) → List (Nat × Text)
  | [] => []
  | a :: t => (start, a) :: pyEnumerate (start + 1) t

/-- The frame sequence transmitted by `_send_reply` (src/adventure_bot.py
lines 443-479): a single unsuffixed frame when the text fits, otherwise the
final chunks each with their part-indicator suffix ` (i/n)` appended, as in
`for i, chunk in enumerate(chunks, 1): msg = f"{chunk} ({i}/{total_parts})"`. -/
def sendReplyFrames (text : Text) (effectiveMaxLen : Nat) : List Text :=
  if text.length ≤ effectiveMaxLen then [text]
  else
    let chunks := (splitChunks text effectiveMaxLen).1
    (pyEnumerate 1 chunks).map (fun ic => ic.2 ++ partSuffix ic.1 chunks.length)

/-- Reassembly: strip each frame's part-indicator suffix (a single frame
carries none, by design). -/
def stripFrames (frames : List Text) : List Text :=
  if frames.length ≤ 1 then frames
  else (pyEnumerate 1 frames).map
    (fun ic => ic.2.take (ic.2.length - (partSuffix ic.1 frames.length).length))

/-! ### Basic chunking lemmas -/

theorem chunksOfAux_flatten (size : Nat) (hsize : 1 ≤ size) :
    ∀ (fuel : Nat) (l : Text), l.length ≤ fuel → (chunksOfAux size fuel l).flatten = l := by
  intro fuel
  induction fuel with
  | zero =>
      intro l hl
      simp only [Nat.le_zero, List.length_eq_zero] at hl
      simp [chunksOfAux, hl]
  | succ n ih =>
      intro l hl
      cases l with
      | nil => simp [chunksOfAux]
      | cons a t =>
          have hlen : ((a :: t).drop size).length ≤ n := by
            have h1 := (a :: t).length_drop size
            have h2 : (a :: t).length = t.length + 1 := by simp
            omega
          simp only [chunksOfAux, List.flatten_cons, ih ((a :: t).drop size) hlen]
          exact (a :: t).take_append_drop size

theorem pyChunks_flatten (size : Nat) (hsize : 1 ≤ size) (l : Text) :
    (pyChunks size l).flatten = l :=
  chunksOfAux_flatten size hsize l.length l le_rfl

theorem chunksOfAux_mem_length (size : Nat) :
    ∀ (fuel : Nat) (l : Text) (c : Text), c ∈ chunksOfAux size fuel l → c.length ≤ size := by
  intro fuel
  induction fuel with
  | zero => intro l c hc; simp [chunksOfAux] at hc
  | succ n ih =>
      intro l c hc
      cases l with
      | nil => simp [chunksOfAux] at hc
      | cons a t =>
          simp only [chunksOfAux, List.mem_cons] at hc
          rcases hc with rfl | hc
          · simp
          · exact ih ((a :: t).drop size) c hc

theorem pyChunks_mem_length (size : Nat) (l : Text) (c : Text) (hc : c ∈ pyChunks size l) :
    c.length ≤ size :=
  chunksOfAux_mem_length size l.length l c hc

/-- Capacity of a part list: joining parts of length at most `size` yields
at most `count * size` characters. -/
theorem flatten_length_le (size : Nat) :
    ∀ parts : List Text, (∀ c ∈ parts, c.length ≤ size) →
      parts.flatten.length ≤ parts.length * size := by
  intro parts hparts
  induction parts with
  | nil => simp
  | cons a t ih =>
      simp only [List.flatten_cons, List.length_append, List.length_cons, Nat.succ_mul]
      have h1 : a.length ≤ size := hparts a (List.mem_cons_self a t)
      have h2 := ih (fun c hc => hparts c (List.mem_cons_of_mem a hc))
      omega

/-- Total payload capacity: the source text is no longer than
(number of chunks) * (chunk size). -/
theorem pyChunks_length_mul (size : Nat) (hsize : 1 ≤ size) (l : Text) :
    l.length ≤ (pyChunks size l).length * size := by
  conv_lhs => rw [← pyChunks_flatten size hsize l]
  exact flatten_length_le size (pyChunks size l) (fun c hc => pyChunks_mem_length size l c hc)

theorem chunksOfAux_nil (size fuel : Nat) : chunksOfAux size fuel [] = [] := by
  cases fuel with
  | zero => rfl
  | succ n => rfl

theorem chunksOfAux_length_lower (size : Nat) (hsize : 1 ≤ size) :
    ∀ (fuel : Nat) (l : Text), l.length ≤ fuel →
      (chunksOfAux size fuel l).length * size < l.length + size := by
  intro fuel
  induction fuel with
  | zero =>
      intro l hl
      simp only [Nat.le_zero, List.length_eq_zero] at hl
      subst hl
      simpa [chunksOfAux] using hsize
  | succ n ih =>
      intro l hl
      cases l with
      | nil => simpa [chunksOfAux] using hsize
      | cons a t =>
          simp only [chunksOfAux, List.length_cons, Nat.succ_mul]
          by_cases hdrop : (a :: t).drop size = []
          · rw [hdrop, chunksOfAux_nil]
            simp
          · have hlen : ((a :: t).drop size).length ≤ n := by
              have h1 := (a :: t).length_drop size
              have h2 : (a :: t).length = t.length + 1 := by simp
              omega
            have hrec := ih ((a :: t).drop size) hlen
            have hdlen : ((a :: t).drop size).length = (a :: t).length - size :=
              (a :: t).length_drop size
            have hsize_le : size ≤ (a :: t).length := by
              by_contra hcon
              push_neg at hcon
              exact hdrop (List.drop_eq_nil_of_le (le_of_lt hcon))
            have h2 : (a :: t).length = t.length + 1 := by simp
            omega

theorem pyChunks_length_lower (size : Nat) (hsize : 1 ≤ size) (l : Text) :
    (pyChunks size l).length * size < l.length + size :=
  chunksOfAux_length_lower size hsize l.length l le_rfl

/-- The chunk count is the least number of parts of length at most `size`
that can carry the text. -/
theorem pyChunks_length_min (size : Nat) (hsize : 1 ≤ size) (l : Text)
    (parts : List Text) (hjoin : parts.flatten = l) (hfit : ∀ p ∈ parts, p.length ≤ size) :
    (pyChunks size l).length ≤ parts.length := by
  have hcap : l.length ≤ parts.length * size := by
    have := flatten_length_le size parts hfit
    rwa [hjoin] at this
  have hlow := pyChunks_length_lower size hsize l
  have hmul : (pyChunks size l).length * size < (parts.length + 1) * size := by
    simp only [Nat.succ_mul]
    omega
  have := Nat.lt_of_mul_lt_mul_right hmul
  omega

/-- Chunk counts are antitone in the chunk size. -/
theorem pyChunks_length_anti (s1 s2 : Nat) (h1 : 1 ≤ s1) (h12 : s1 ≤ s2) (l : Text) :
    (pyChunks s2 l).length ≤ (pyChunks s1 l).length := by
  have hcap : l.length ≤ (pyChunks s1 l).length * s2 := by
    have := pyChunks_length_mul s1 h1 l
    have hm : (pyChunks s1 l).length * s1 ≤ (pyChunks s1 l).length * s2 :=
      Nat.mul_le_mul_left _ h12
    omega
  have hlow := pyChunks_length_lower s2 (le_trans h1 h12) l
  have hmul : (pyChunks s2 l).length * s2 < ((pyChunks s1 l).length + 1) * s2 := by
    simp only [Nat.succ_mul]
    omega
  have := Nat.lt_of_mul_lt_mul_right hmul
  omega

/-! ### Lengths of decimal representations -/

theorem natReprAux_length_le :
    ∀ (fuel k n : Nat) (acc : Text), n < fuel → n < 10 ^ k → 1 ≤ k →
      (natReprAux fuel n acc).length ≤ acc.length + k := by
  intro fuel
  induction fuel with
  | zero => intro k n acc hfuel _ _; omega
  | succ f ih =>
      intro k n acc hfuel hk hk1
      simp only [natReprAux]
      by_cases hdiv : n / 10 = 0
      · simp [hdiv]
        omega
      · simp only [hdiv, if_false]
        have hn10 : 10 ≤ n := by
          by_contra hcon
          push_neg at hcon
          have : n / 10 = 0 := Nat.div_eq_of_lt hcon
          exact hdiv this
        have hk2 : 2 ≤ k := by
          by_contra hcon
          push_neg at hcon
          have hk1' : k = 1 := by omega
          subst hk1'
          simp at hk
          omega
        have hrec := ih (k - 1) (n / 10) (Char.ofNat (48 + n % 10) :: acc)
        have hfuel2 : n / 10 < f := by
          have : n / 10 < n := Nat.div_lt_self (by omega) (by omega)
          omega
        have hdigits : n / 10 < 10 ^ (k - 1) := by
          have hlt : n < 10 ^ k := hk
          have hpow : 10 ^ k = 10 ^ (k - 1) * 10 := by
            cases k with
            | zero => omega
            | succ m => simp [pow_succ]
          rw [Nat.div_lt_iff_lt_mul (by omega)]
          omega
        have := hrec hfuel2 hdigits (by omega)
        simp only [List.length_cons] at this
        omega

theorem natRepr_length_le (k n : Nat) (hk : n < 10 ^ k) (hk1 : 1 ≤ k) :
    (natRepr n).length ≤ k := by
  have := natReprAux_length_le (n + 1) k n [] (by omega) hk hk1
  simpa using this

theorem natReprAux_length_pos :
    ∀ (fuel n : Nat) (acc : Text), n < fuel →
      acc.length + 1 ≤ (natReprAux fuel n acc).length := by
  intro fuel
  induction fuel with
  | zero => intro n acc hfuel; omega
  | succ f ih =>
      intro n acc hfuel
      simp only [natReprAux]
      by_cases hdiv : n / 10 = 0
      · simp [hdiv]
      · simp only [hdiv, if_false]
        have hfuel2 : n / 10 < f := by
          have : n / 10 < n := Nat.div_lt_self (by omega) (by omega)
          omega
        have := ih (n / 10) (Char.ofNat (48 + n % 10) :: acc) hfuel2
        simp only [List.length_cons] at this
        omega

theorem natRepr_length_pos (n : Nat) : 1 ≤ (natRepr n).length := by
  have := natReprAux_length_pos (n + 1) n [] (by omega)
  simpa using this

theorem natReprAux_length_ge_two :
    ∀ (fuel n : Nat) (acc : Text), n < fuel → 10 ≤ n →
      acc.length + 2 ≤ (natReprAux fuel n acc).length := by
  intro fuel
  induction fuel with
  | zero => intro n acc hfuel _; omega
  | succ f ih =>
      intro n acc hfuel hn
      have hdiv : ¬ n / 10 = 0 := by
        have : 1 ≤ n / 10 := (Nat.le_div_iff_mul_le (by omega)).mpr (by omega)
        omega
      simp only [natReprAux, hdiv, if_false]
      have hfuel2 : n / 10 < f := by
        have : n / 10 < n := Nat.div_lt_self (by omega) (by omega)
        omega
      have := natReprAux_length_pos f (n / 10) (Char.ofNat (48 + n % 10) :: acc) hfuel2
      simp only [List.length_cons] at this
      omega

theorem natRepr_length_ge_two (n : Nat) (hn : 10 ≤ n) : 2 ≤ (natRepr n).length := by
  have := natReprAux_length_ge_two (n + 1) n [] (by omega) hn
  simpa using this

/-- Digit-count monotonicity on the range relevant to the reclaiming pass
(totals below 100). -/
theorem natRepr_length_mono_le_99 (a b : Nat) (hab : a ≤ b) (hb : b ≤ 99) :
    (natRepr a).length ≤ (natRepr b).length := by
  by_cases ha : a ≤ 9
  · have h1 : (natRepr a).length ≤ 1 := natRepr_length_le 1 a (by omega) (by omega)
    have h2 := natRepr_length_pos b
    omega
  · have h1 : (natRepr a).length ≤ 2 := natRepr_length_le 2 a (by omega) (by omega)
    have h2 : 2 ≤ (natRepr b).length := natRepr_length_ge_two b (by omega)
    omega

theorem partSuffix_length (i n : Nat) :
    (partSuffix i n).length = (natRepr i).length + (natRepr n).length + 4 := by
  have h1 : (str " (").length = 2 := rfl
  have h2 : (str "/").length = 1 := rfl
  have h3 : (str ")").length = 1 := rfl
  simp only [partSuffix, List.length_append, h1, h2, h3]
  omega

/-! ### Enumeration lemmas -/

theorem pyEnumerate_length (k : Nat) (l : List Text) :
    (pyEnumerate k l).length = l.length := by
  induction l generalizing k with
  | nil => rfl
  | cons a t ih => simp [pyEnumerate, ih]

theorem pyEnumerate_map_snd (k : Nat) (l : List Text) :
    (pyEnumerate k l).map Prod.snd = l := by
  induction l generalizing k with
  | nil => rfl
  | cons a t ih => simp [pyEnumerate, ih]

theorem mem_pyEnumerate (k : Nat) (l : List Text) (p : Nat × Text) (hp : p ∈ pyEnumerate k l) :
    k ≤ p.1 ∧ p.1 < k + l.length ∧ p.2 ∈ l := by
  induction l generalizing k with
  | nil => simp [pyEnumerate] at hp
  | cons a t ih =>
      simp only [pyEnumerate, List.mem_cons] at hp
      rcases hp with rfl | hp
      · simp
      · have h := ih (k + 1) hp
        refine ⟨by omega, ?_, List.mem_cons_of_mem a h.2.2⟩
        simp only [List.length_cons]
        omega

theorem pyEnumerate_map (k : Nat) (l : List Text) (f : Text → Text) :
    pyEnumerate k (l.map f) = (pyEnumerate k l).map (fun p => (p.1, f p.2)) := by
  induction l generalizing k with
  | nil => rfl
  | cons a t ih => simp [pyEnumerate, ih]

theorem take_length_append (l1 l2 : Text) : (l1 ++ l2).take l1.length = l1 := by
  induction l1 with
  | nil => rfl
  | cons a t ih => simp [ih]

/-! ### Structure of the two-pass resolution -/

theorem splitChunks_eq (text : Text) (eff : Nat) :
    (splitChunks text eff).1 = pyChunks (splitChunks text eff).2 text := by
  unfold splitChunks
  dsimp only
  split
  · split
    · rfl
    · rfl
  · rfl

theorem splitChunks_size_bounds (text : Text) (eff : Nat) (heff : 12 ≤ eff) :
    1 ≤ (splitChunks text eff).2 ∧ (splitChunks text eff).2 ≤ eff - 6 := by
  unfold splitChunks
  dsimp only
  split
  · split
    · rename_i hlt hsuf
      have hp := partSuffix_length (pyChunks (eff - 11) text).length (pyChunks (eff - 11) text).length
      have hp1 := natRepr_length_pos (pyChunks (eff - 11) text).length
      constructor <;> simp only [] <;> omega
    · constructor <;> omega
  · constructor <;> omega

/-- Stripping the per-part suffixes recovers the chunk list. -/
theorem strip_map_general (n : Nat) :
    ∀ (k : Nat) (l : List Text),
      (pyEnumerate k ((pyEnumerate k l).map (fun ic => ic.2 ++ partSuffix ic.1 n))).map
        (fun ic => ic.2.take (ic.2.length - (partSuffix ic.1 n).length)) = l := by
  intro k l
  induction l generalizing k with
  | nil => rfl
  | cons a t ih =>
      simp only [pyEnumerate, List.map_cons]
      have hhead : (a ++ partSuffix k n).take ((a ++ partSuffix k n).length - (partSuffix k n).length) = a := by
        have hl : (a ++ partSuffix k n).length - (partSuffix k n).length = a.length := by
          simp [List.length_append]
        rw [hl]
        exact take_length_append a (partSuffix k n)
      rw [hhead, ih (k + 1)]

theorem stripFrames_suffixed (chunks : List Text) (h2 : 2 ≤ chunks.length) :
    stripFrames ((pyEnumerate 1 chunks).map (fun ic => ic.2 ++ partSuffix ic.1 chunks.length))
      = chunks := by
  have hflen : ((pyEnumerate 1 chunks).map
      (fun ic => ic.2 ++ partSuffix ic.1 chunks.length)).length = chunks.length := by
    rw [List.length_map, pyEnumerate_length]
  unfold stripFrames
  rw [hflen, if_neg (by omega)]
  exact strip_map_general chunks.length 1 chunks

/-- The final chunk list has at least two chunks whenever the text was long
enough to require splitting. -/
theorem splitChunks_two_le (text : Text) (eff : Nat) (heff : 12 ≤ eff)
    (hlong : eff < text.length) : 2 ≤ (splitChunks text eff).1.length := by
  have hsz := splitChunks_size_bounds text eff heff
  have hchunks := splitChunks_eq text eff
  by_contra hcon
  push_neg at hcon
  have hcap := pyChunks_length_mul (splitChunks text eff).2 hsz.1 text
  rw [← hchunks] at hcap
  have hle : (splitChunks text eff).1.length * (splitChunks text eff).2
      ≤ 1 * (splitChunks text eff).2 :=
    Nat.mul_le_mul_right _ (by omega)
  simp only [one_mul] at hle
  omega

/-- C1: splitting a string into frames and concatenating the frames in
order with each frame's part-indicator suffix stripped reproduces the
original string exactly, for every string and every effective maximum
length of at least 12 (which keeps the Python slicing loop productive). -/
theorem chunk_roundtrip (text : Text) (eff : Nat) (heff : 12 ≤ eff) :
    (stripFrames (sendReplyFrames text eff)).flatten = text := by
  by_cases hfit : text.length ≤ eff
  · simp [sendReplyFrames, hfit, stripFrames]
  · push_neg at hfit
    have hsz := splitChunks_size_bounds text eff heff
    have hchunks := splitChunks_eq text eff
    have h2 := splitChunks_two_le text eff heff hfit
    have hframes : sendReplyFrames text eff
        = (pyEnumerate 1 (splitChunks text eff).1).map
            (fun ic => ic.2 ++ partSuffix ic.1 (splitChunks text eff).1.length) := by
      simp only [sendReplyFrames]
      rw [if_neg (by omega : ¬ text.length ≤ eff)]
    rw [hframes, stripFrames_suffixed (splitChunks text eff).1 h2, hchunks,
      pyChunks_flatten (splitChunks text eff).2 hsz.1]

theorem sendReplyFrames_length_split (text : Text) (eff : Nat) (hlong : eff < text.length) :
    (sendReplyFrames text eff).length = (splitChunks text eff).1.length := by
  unfold sendReplyFrames
  rw [if_neg (by omega : ¬ text.length ≤ eff)]
  dsimp only
  rw [List.length_map, pyEnumerate_length]

/-- C3: for every text that requires splitting, the delivered frame count is
minimal among all ways of partitioning the text into payloads that fit the
final (tightened) chunk budget, namely the effective maximum length minus
the final part-indicator suffix width (`chunk_size` after the second pass). -/
theorem chunk_minimality (text : Text) (eff : Nat) (heff : 12 ≤ eff) (hlong : eff < text.length)
    (parts : List Text) (hjoin : parts.flatten = text)
    (hfit : ∀ p ∈ parts, p.length ≤ (splitChunks text eff).2) :
    (sendReplyFrames text eff).length ≤ parts.length := by
  have hsz := splitChunks_size_bounds text eff heff
  rw [sendReplyFrames_length_split text eff hlong, splitChunks_eq]
  exact pyChunks_length_min (splitChunks text eff).2 hsz.1 text parts hjoin hfit

theorem natRepr_length_le_two (n : Nat) (h : n ≤ 99) : (natRepr n).length ≤ 2 := by
  have h100 : (10 : Nat) ^ 2 = 100 := by norm_num
  exact natRepr_length_le 2 n (by rw [h100]; omega) (by omega)

theorem natRepr_length_le_three (n : Nat) (h : n ≤ 999) : (natRepr n).length ≤ 3 := by
  have h1000 : (10 : Nat) ^ 3 = 1000 := by norm_num
  exact natRepr_length_le 3 n (by rw [h1000]; omega) (by omega)

/-- Case analysis on the second pass of `_send_reply`: either the part count
of the conservative pass was below 100 and its exact suffix width was
narrower than 11 (so the text is re-chunked with the tightened width), or
the conservative chunking is kept. -/
theorem splitChunks_cases (text : Text) (eff : Nat) :
    ((pyChunks (eff - 11) text).length < 100 ∧
      (partSuffix (pyChunks (eff - 11) text).length (pyChunks (eff - 11) text).length).length < 11 ∧
      splitChunks text eff =
        (pyChunks (eff - (partSuffix (pyChunks (eff - 11) text).length
            (pyChunks (eff - 11) text).length).length) text,
         eff - (partSuffix (pyChunks (eff - 11) text).length
            (pyChunks (eff - 11) text).length).length))
    ∨ (100 ≤ (pyChunks (eff - 11) text).length ∧
        splitChunks text eff = (pyChunks (eff - 11) text, eff - 11))
    ∨ ((pyChunks (eff - 11) text).length < 100 ∧
        11 ≤ (partSuffix (pyChunks (eff - 11) text).length
          (pyChunks (eff - 11) text).length).length ∧
        splitChunks text eff = (pyChunks (eff - 11) text, eff - 11)) := by
  by_cases h1 : (pyChunks (eff - 11) text).length < 100
  · by_cases h2 : (partSuffix (pyChunks (eff - 11) text).length
        (pyChunks (eff - 11) text).length).length < 11
    · left
      refine ⟨h1, h2, ?_⟩
      unfold splitChunks
      dsimp only
      rw [if_pos h1, if_pos h2]
    · right; right
      refine ⟨h1, by omega, ?_⟩
      unfold splitChunks
      dsimp only
      rw [if_pos h1, if_neg h2]
  · right; left
    refine ⟨by omega, ?_⟩
    unfold splitChunks
    dsimp only
    rw [if_neg h1]

/-- C5 (amended): every frame, suffix included, fits within the effective
maximum length, provided the conservative pass needs fewer than 1000 parts
(texts of length at most `(eff - 11) * 999`; beyond that the fixed
worst-case reservation of 11 characters for " (999/999)" is too narrow). -/
theorem chunk_size_bound (text : Text) (eff : Nat) (heff : 12 ≤ eff)
    (hbound : text.length ≤ (eff - 11) * 999) :
    ∀ f ∈ sendReplyFrames text eff, f.length ≤ eff := by
  intro f hf
  by_cases hfit : text.length ≤ eff
  · unfold sendReplyFrames at hf
    rw [if_pos hfit] at hf
    simp only [List.mem_singleton] at hf
    subst hf
    exact hfit
  · push_neg at hfit
    unfold sendReplyFrames at hf
    rw [if_neg (by omega : ¬ text.length ≤ eff)] at hf
    dsimp only at hf
    obtain ⟨p, hp, rfl⟩ := List.mem_map.mp hf
    obtain ⟨hp1, hp2, hp3⟩ := mem_pyEnumerate 1 _ p hp
    have hn1lt : (pyChunks (eff - 11) text).length ≤ 999 := by
      have hlow := pyChunks_length_lower (eff - 11) (by omega) text
      by_contra hcon
      push_neg at hcon
      have hm : 1000 * (eff - 11) ≤ (pyChunks (eff - 11) text).length * (eff - 11) :=
        Nat.mul_le_mul_right _ (by omega)
      omega
    have hlen := partSuffix_length p.1 (splitChunks text eff).1.length
    rcases splitChunks_cases text eff with ⟨hlt, hsuf, heq⟩ | ⟨hge, heq⟩ | ⟨hlt, hsuf, heq⟩
    · -- tightened pass: suffix width w = 4 + 2 * digits(first-pass count)
      have hw := partSuffix_length (pyChunks (eff - 11) text).length
        (pyChunks (eff - 11) text).length
      have hd1 : (natRepr (pyChunks (eff - 11) text).length).length ≤ 2 :=
        natRepr_length_le_two _ (by omega)
      have hchunksEq : (splitChunks text eff).1
          = pyChunks (eff - (partSuffix (pyChunks (eff - 11) text).length
              (pyChunks (eff - 11) text).length).length) text := by
        rw [heq]
      have hanti : (splitChunks text eff).1.length ≤ (pyChunks (eff - 11) text).length := by
        rw [hchunksEq]
        exact pyChunks_length_anti (eff - 11)
          (eff - (partSuffix (pyChunks (eff - 11) text).length
            (pyChunks (eff - 11) text).length).length)
          (by omega) (by omega) text
      have hclen : p.2.length ≤ eff - (partSuffix (pyChunks (eff - 11) text).length
          (pyChunks (eff - 11) text).length).length := by
        rw [hchunksEq] at hp3
        exact pyChunks_mem_length _ text p.2 hp3
      have hmono1 : (natRepr p.1).length ≤ (natRepr (pyChunks (eff - 11) text).length).length := by
        refine natRepr_length_mono_le_99 p.1 (pyChunks (eff - 11) text).length ?_ (by omega)
        have := pyEnumerate_length 1 (splitChunks text eff).1
        omega
      have hmono2 : (natRepr (splitChunks text eff).1.length).length
          ≤ (natRepr (pyChunks (eff - 11) text).length).length :=
        natRepr_length_mono_le_99 _ _ hanti (by omega)
      rw [List.length_append, hlen]
      omega
    · -- conservative pass kept: part count between 100 and 999
      have hchunksEq : (splitChunks text eff).1 = pyChunks (eff - 11) text := by rw [heq]
      have hclen : p.2.length ≤ eff - 11 := by
        rw [hchunksEq] at hp3
        exact pyChunks_mem_length _ text p.2 hp3
      have hcount : (splitChunks text eff).1.length = (pyChunks (eff - 11) text).length := by
        rw [hchunksEq]
      have hd1 : (natRepr p.1).length ≤ 3 := by
        refine natRepr_length_le_three p.1 ?_
        have := pyEnumerate_length 1 (splitChunks text eff).1
        omega
      have hd2 : (natRepr (splitChunks text eff).1.length).length ≤ 3 := by
        rw [hcount]
        exact natRepr_length_le_three _ (by omega)
      rw [List.length_append, hlen]
      omega
    · -- impossible: a part count below 100 has suffix width at most 8
      exfalso
      have hw := partSuffix_length (pyChunks (eff - 11) text).length
        (pyChunks (eff - 11) text).length
      have hd1 : (natRepr (pyChunks (eff - 11) text).length).length ≤ 2 :=
        natRepr_length_le_two _ (by omega)
      omega

theorem pyChunks_one_replicate :
    ∀ m : Nat, ∀ a : Char, chunksOfAux 1 m (List.replicate m a) = List.replicate m ([a] : Text) := by
  intro m
  induction m with
  | zero => intro a; rfl
  | succ m ih =>
      intro a
      simp only [List.replicate_succ, chunksOfAux, List.take_succ_cons, List.take_zero,
        List.drop_succ_cons, List.drop_zero, ih a]

theorem mem_pyEnumerate_replicate (a : Text) :
    ∀ (m k i : Nat), k ≤ i → i < k + m → (i, a) ∈ pyEnumerate k (List.replicate m a) := by
  intro m
  induction m with
  | zero => intro k i h1 h2; omega
  | succ m ih =>
      intro k i h1 h2
      simp only [List.replicate_succ, pyEnumerate]
      by_cases hik : i = k
      · subst hik
        exact List.mem_cons_self _ _
      · exact List.mem_cons_of_mem _ (ih (k + 1) i (by omega) (by omega))

/-- C5 as stated is false: with an effective maximum length of 12 (a valid
budget: the conservative chunk size is 1), a text of 1001 characters makes
the conservative pass produce 1001 parts, no reclaiming happens, and part
1000 is `"A (1000/1001)"` of length 13 > 12. -/
theorem chunk_size_bound_cex :
    ¬ (∀ f ∈ sendReplyFrames (List.replicate 1001 'A') 12, f.length ≤ 12) := by
  intro hall
  have hchunks : pyChunks 1 (List.replicate 1001 'A') = List.replicate 1001 (['A'] : Text) := by
    unfold pyChunks
    rw [List.length_replicate]
    exact pyChunks_one_replicate 1001 'A'
  have hsplit : splitChunks (List.replicate 1001 'A') 12
      = (List.replicate 1001 (['A'] : Text), 1) := by
    unfold splitChunks
    dsimp only
    norm_num [hchunks, List.length_replicate]
  have hframes : sendReplyFrames (List.replicate 1001 'A') 12
      = (pyEnumerate 1 (List.replicate 1001 (['A'] : Text))).map
          (fun ic => ic.2 ++ partSuffix ic.1 1001) := by
    unfold sendReplyFrames
    rw [if_neg (by rw [List.length_replicate]; omega)]
    dsimp only
    rw [hsplit]
    dsimp only
    rw [List.length_replicate]
  have hmem : ((1000 : Nat), (['A'] : Text)) ∈ pyEnumerate 1 (List.replicate 1001 (['A'] : Text)) :=
    mem_pyEnumerate_replicate ['A'] 1001 1 1000 (by omega) (by omega)
  have hf : (['A'] ++ partSuffix 1000 1001 : Text)
      ∈ sendReplyFrames (List.replicate 1001 'A') 12 := by
    rw [hframes]
    exact List.mem_map_of_mem _ hmem
  have hcontra := hall _ hf
  have hlen : (['A'] ++ partSuffix 1000 1001 : Text).length = 13 := by decide
  omega

/-- C4: splitting 450 copies of 'A' with effective maximum length 230 yields
exactly 3 frames, each of length at most 230 including its suffix, whose
stripped concatenation is the original text. -/
theorem concrete_split_450 :
    (sendReplyFrames (List.replicate 450 'A') 230).length = 3
    ∧ (∀ f ∈ sendReplyFrames (List.replicate 450 'A') 230, f.length ≤ 230)
    ∧ (stripFrames (sendReplyFrames (List.replicate 450 'A') 230)).flatten
        = List.replicate 450 'A' := by
  refine ⟨by decide, by decide, by decide⟩

/-! ### Session store (src/adventure_bot.py lines 489-561)

A session is a Python dict; the fields ever written by the bot are
`status`, `node`, `history`, `theme` (all strings or lists of strings) and
the `last_active` timestamp stamped on every update.  `Option` models a
key that is absent from the dict.  The store itself (`self._sessions`) is a
dict from session key (the sender) to session; it is modelled as an
association list, and `keysNodup` states the dict invariant that each key
occurs at most once. -/

structure Session where
  status : Option Text
  node : Option Text
  history : Option (List Text)
  theme : Option Text
  lastActive : Nat
deriving DecidableEq

/-- The empty dict `{}` returned by `_get_session` for an absent key. -/
def emptySession : Session := ⟨none, none, none, none, 0⟩

/-- The partial field dict passed to `_update_session`. -/
structure SessionPatch where
  status : Option Text
  node : Option Text
  history : Option (List Text)
  theme : Option Text
deriving DecidableEq

def mergeField {α : Type} (new old : Option α) : Option α :=
  match new with
  | some v => some v
  | none => old

/-- Python `session.update(data)` followed by the unconditional
`session["last_active"] = time.time()` stamp of `_update_session`. -/
def applyPatch (s : Session) (p : SessionPatch) (now : Nat) : Session :=
  ⟨mergeField p.status s.status, mergeField p.node s.node,
   mergeField p.history s.history, mergeField p.theme s.theme, now⟩

abbrev Store := List (Text × Session)

/-- Dict lookup (first entry with the key). -/
def alookup {α : Type} : List (Text × α) → Text → Option α
  | [], _ => none
  | (k2, v) :: rest, k => if k2 = k then some v else alookup rest k

def lookupS (store : Store) (k : Text) : Option Session := alookup store k

/-- Dict assignment `d[k] = v`: replace the entry if the key is present,
else append. -/
def setS : Store → Text → Session → Store
  | [], k, v => [(k, v)]
  | (k2, v2) :: rest, k, v =>
      if k2 = k then (k, v) :: rest else (k2, v2) :: setS rest k v

/-- Dict deletion `del d[k]`. -/
def eraseS : Store → Text → Store
  | [], _ => []
  | (k2, v) :: rest, k =>
      if k2 = k then eraseS rest k else (k2, v) :: eraseS rest k

/-- The dict invariant: each key occurs at most once. -/
abbrev keysNodup (store : Store) : Prop := (store.map Prod.fst).Nodup

def SESSION_EXPIRY_SECONDS : Nat := 7200

/-- The bot state touched by session management: the in-memory store, the
dirty flag, the time of the last save, and the contents of the durable
sessions file (modelled as the decoded store; `_save_sessions` writes the
full store, and the write is modelled as succeeding — the `OSError` branch
only logs and keeps the in-memory state). -/
structure BotState where
  sessions : Store
  sessionsDirty : Bool
  lastSessionSave : Nat
  savedFile : Store
deriving DecidableEq

/-- `_save_sessions(force)` (src/adventure_bot.py lines 498-523): skip
unless forced or (dirty and at least 5 seconds since the last save);
otherwise write the full store and reset the dirty flag and save clock. -/
def saveSessions (force : Bool) (now : Nat) (st : BotState) : BotState :=
  if !force && !st.sessionsDirty then st
  else if !force && now - st.lastSessionSave < 5 then st
  else ⟨st.sessions, false, now, st.sessions⟩

/-- The record filter of `_expire_sessions` (src/adventure_bot.py lines
525-537), with the horizon as a parameter: keep exactly the records whose
`last_active` is within `ttl` of `now`. -/
def expireSessions (now ttl : Nat) (store : Store) : Store :=
  store.filter (fun kv => decide (now - kv.2.lastActive ≤ ttl))

/-- `_expire_sessions`: drop the stale records, and if any were dropped,
mark dirty and attempt a (non-forced) save. -/
def expireStep (now : Nat) (st : BotState) : BotState :=
  let expired := st.sessions.filter
    (fun kv => decide (SESSION_EXPIRY_SECONDS < now - kv.2.lastActive))
  if expired.isEmpty then st
  else saveSessions false now
    ⟨expireSessions now SESSION_EXPIRY_SECONDS st.sessions, true, st.lastSessionSave, st.savedFile⟩

/-- `_update_session` (src/adventure_bot.py lines 543-550): merge the patch
into the existing record (or a fresh one), stamp `last_active`, mark dirty. -/
def updateSession (k : Text) (p : SessionPatch) (now : Nat) (st : BotState) : BotState :=
  ⟨setS st.sessions k (applyPatch ((lookupS st.sessions k).getD emptySession) p now),
   true, st.lastSessionSave, st.savedFile⟩

/-- `_clear_session` (src/adventure_bot.py lines 552-561): remove the record
if present and then force an immediate save. -/
def clearSession (k : Text) (now : Nat) (st : BotState) : BotState :=
  if (lookupS st.sessions k).isSome then
    saveSessions true now ⟨eraseS st.sessions k, true, st.lastSessionSave, st.savedFile⟩
  else st

/-! ### Loading the persistence file (src/adventure_bot.py lines 489-496)

`_load_sessions` runs `json.load` on the sessions file inside
`try: ... except (json.JSONDecodeError, OSError):`.  The possible states of
the file on disk, and what CPython does for each:
  * missing: `SESSION_FILE.exists()` is false, nothing is read, the store
    stays `{}`;
  * unreadable (e.g. permission denied): `open` raises `OSError`, which is
    caught, leaving `{}`;
  * bytes that are not valid UTF-8: reading the text stream inside
    `json.load` raises `UnicodeDecodeError`, which subclasses
    `ValueError` but neither `json.JSONDecodeError` nor `OSError`, so it
    propagates to the caller;
  * valid UTF-8 that is not valid JSON: `json.load` raises
    `json.JSONDecodeError`, which is caught, leaving `{}`;
  * valid JSON: the decoded store is installed. -/

inductive FileState where
  | missing
  | unreadable
  | notUtf8
  | badJson
  | valid (contents : Store)
deriving DecidableEq

/-- `_load_sessions`; `Except.error` models an uncaught exception reaching
the caller. -/
def loadSessions : FileState → Except Text Store
  | FileState.missing => Except.ok []
  | FileState.unreadable => Except.ok []
  | FileState.notUtf8 => Except.error (str "UnicodeDecodeError")
  | FileState.badJson => Except.ok []
  | FileState.valid s => Except.ok s

/-! ### Built-in offline story trees (src/adventure_bot.py lines 102-333) -/

structure StoryNode where
  text : Text
  choices : List Text
  next : List (Text × Text)
deriving DecidableEq

def mkNode (t : String) (cs : List String) (nx : List (String × String)) : StoryNode :=
  ⟨t.data, cs.map str, nx.map (fun p => (str p.1, str p.2))⟩

abbrev StoryTree := List (Text × StoryNode)

def fantasyStory : StoryTree := [
  (str "start", mkNode "You wake at a crossroads at dusk. Strange sounds fill the air."
    ["Take the road", "Enter forest", "Make camp"]
    [("1", "road"), ("2", "forest"), ("3", "camp")]),
  (str "road", mkNode "A bridge ahead. A troll demands: 'Pay or fight!'"
    ["Pay the toll", "Fight him", "Sneak past"]
    [("1", "road_pay"), ("2", "road_fight"), ("3", "road_sneak")]),
  (str "road_pay", mkNode "The troll reveals a shortcut to a hidden city. THE END" [] []),
  (str "road_fight", mkNode "You defeat the troll! Under the bridge: a chest of gold. THE END" [] []),
  (str "road_sneak", mkNode "You fall into the river and wash up at a distant shore. THE END" [] []),
  (str "forest", mkNode "Ancient trees tower above. A faint blue light blinks deeper in."
    ["Follow the light", "Climb a tree", "Turn back"]
    [("1", "forest_light"), ("2", "forest_climb"), ("3", "start")]),
  (str "forest_light", mkNode "The light leads to a fairy ring. What do you do?"
    ["Step inside", "Watch only", "Destroy it"]
    [("1", "fairy_in"), ("2", "fairy_watch"), ("3", "fairy_destroy")]),
  (str "fairy_in", mkNode "You step in and become champion of a magical realm. THE END" [] []),
  (str "fairy_watch", mkNode "Fairies dance till dawn then gift you a wishing stone. THE END" [] []),
  (str "fairy_destroy", mkNode "Destroying the ring frees a banshee. You flee and survive. THE END" [] []),
  (str "forest_climb", mkNode "From the treetop you spy a dragon's nest with glittering eggs."
    ["Take an egg", "Note location", "Descend fast"]
    [("1", "dragon_egg"), ("2", "dragon_note"), ("3", "dragon_run")]),
  (str "dragon_egg", mkNode "You grab an egg. The mother dragon returns and adopts you. THE END" [] []),
  (str "dragon_note", mkNode "You sell the nest location to a wizard for a fortune. THE END" [] []),
  (str "dragon_run", mkNode "The dragon spots you but drops a gift in thanks. THE END" [] []),
  (str "camp", mkNode "By the fire you find a map and a torn journal."
    ["Read the map", "Read journal", "Sleep"]
    [("1", "camp_map"), ("2", "camp_journal"), ("3", "camp_sleep")]),
  (str "camp_map", mkNode "The map marks a dragon lair 2 miles east. You go and claim the hoard. THE END" [] []),
  (str "camp_journal", mkNode "The journal reveals you are the chosen one. Your quest begins. THE END" [] []),
  (str "camp_sleep", mkNode "A wizard visits your dreams and grants you a magic sword. THE END" [] [])]

def scifiStory : StoryTree := [
  (str "start", mkNode "Your colony ship drifts off course. Red alarms flash."
    ["Go to bridge", "Check engines", "Wake captain"]
    [("1", "bridge"), ("2", "engines"), ("3", "captain")]),
  (str "bridge", mkNode "Stars show you're near an uncharted system. A signal blinks."
    ["Follow signal", "Plot safe course", "Send SOS"]
    [("1", "signal"), ("2", "safe_course"), ("3", "sos")]),
  (str "engines", mkNode "A coolant leak hisses. The reactor is at 12%. Time is short."
    ["Fix the leak", "Reroute power", "Evacuate now"]
    [("1", "fix_leak"), ("2", "reroute"), ("3", "evac_pod")]),
  (str "captain", mkNode "The captain's pod is empty. A blood smear leads aft."
    ["Follow smear", "Lock bulkheads", "Arm yourself"]
    [("1", "smear"), ("2", "lockdown"), ("3", "armed")]),
  (str "signal", mkNode "The signal guides you to a derelict with spare fuel. You survive. THE END" [] []),
  (str "safe_course", mkNode "You plot a course home. Fuel runs out but a rescue ship finds you. THE END" [] []),
  (str "sos", mkNode "A nearby freighter answers. You're towed to safety. THE END" [] []),
  (str "fix_leak", mkNode "You seal the leak. Power restored. The ship limps to a station. THE END" [] []),
  (str "reroute", mkNode "Clever rerouting buys 10 hours. You make it to an asteroid base. THE END" [] []),
  (str "evac_pod", mkNode "You launch in an escape pod and drift for days before rescue. THE END" [] []),
  (str "smear", mkNode "You find the captain held by a rogue AI. You free them. THE END" [] []),
  (str "lockdown", mkNode "Lockdown traps you but you crawl through vents to escape. THE END" [] []),
  (str "armed", mkNode "Armed, you confront a malfunctioning android and shut it down. THE END" [] [])]

def horrorStory : StoryTree := [
  (str "start", mkNode "You wake alone in an old manor. The front door is locked."
    ["Search upstairs", "Find a window", "Check cellar"]
    [("1", "upstairs"), ("2", "window"), ("3", "cellar")]),
  (str "upstairs", mkNode "A corridor stretches ahead. A door at the end creaks open."
    ["Enter the room", "Call out", "Retreat"]
    [("1", "enter_room"), ("2", "call_out"), ("3", "start")]),
  (str "window", mkNode "Outside: thick fog and silent figures standing still."
    ["Smash window", "Watch figures", "Find a key"]
    [("1", "smash"), ("2", "watch"), ("3", "find_key")]),
  (str "cellar", mkNode "Damp steps descend into darkness. Something breathes below."
    ["Descend slowly", "Throw a torch", "Seal the door"]
    [("1", "descend"), ("2", "torch"), ("3", "seal")]),
  (str "enter_room", mkNode "A ghost shows you a hidden exit. You escape unharmed. THE END" [] []),
  (str "call_out", mkNode "Your echoed name panics you into finding the exit. THE END" [] []),
  (str "smash", mkNode "You smash through and sprint. The figures don't follow. THE END" [] []),
  (str "watch", mkNode "The figures vanish at dawn. You find the door unlocked. THE END" [] []),
  (str "find_key", mkNode "A brass key unlocks the front door. You escape into morning. THE END" [] []),
  (str "descend", mkNode "A smuggler's passage leads under the wall to freedom. THE END" [] []),
  (str "torch", mkNode "The torch reveals only a cat. Relieved, you find an exit. THE END" [] []),
  (str "seal", mkNode "Sealing the door reveals a hidden panel with the front door key. THE END" [] [])]

def FALLBACK_STORIES : List (Text × StoryTree) :=
  [(str "fantasy", fantasyStory), (str "scifi", scifiStory), (str "horror", horrorStory)]

def VALID_THEMES : List Text := FALLBACK_STORIES.map Prod.fst

/-- `FALLBACK_STORIES.get(theme, _FANTASY_STORY)`. -/
def treeFor (theme : Text) : StoryTree := (alookup FALLBACK_STORIES theme).getD fantasyStory

def defaultNode : StoryNode := ⟨[], [], []⟩

/-- `tree["start"]`, defaulted for totality; `getFallbackStory` checks the
lookup itself so the default is never observed there. -/
def startNodeOf (theme : Text) : StoryNode :=
  (alookup (treeFor theme) (str "start")).getD defaultNode

/-- `tree.get(current_node_id, tree["start"])` (src/adventure_bot.py line 647). -/
def currentNodeOf (theme current : Text) : StoryNode :=
  (alookup (treeFor theme) current).getD (startNodeOf theme)

/-- `current_node.get("next", {}).get(choice, "start")`
(src/adventure_bot.py line 648). -/
def advance (theme current choice : Text) : Text :=
  (alookup (currentNodeOf theme current).next choice).getD (str "start")

/-! ### Formatting (src/adventure_bot.py lines 567-579) -/

/-- The line `" ".join(f"{i + 1}:{c}" for i, c in enumerate(choices))`. -/
def choiceLine (choices : List Text) : Text :=
  List.intercalate (str " ")
    ((pyEnumerate 1 choices).map (fun ic => natRepr ic.1 ++ str ":" ++ ic.2))

/-- `_format_story_message`: text alone for a terminal node, else text, a
newline, and the numbered choice line. -/
def formatStoryMessage (text : Text) (choices : List Text) : Text :=
  if choices.isEmpty then text
  else text ++ str "\n" ++ choiceLine choices

/-! ### Fallback traversal and story generation
(src/adventure_bot.py lines 633-697)

The Ollama call is modelled by the oracle parameter `llm : Option Text`:
the text the backend returned, or `none` for any failure (network error,
timeout, empty response, missing `requests`).  The prompt string built from
theme, trailing history and choice label only feeds that oracle and is not
modelled. -/

/-- Python `l[-n:]`. -/
def pyLastN (n : Nat) (l : List Text) : List Text := l.drop (l.length - n)

def pyUpper (l : Text) : Text := l.map Char.toUpper

/-- Python's substring test `needle in hay`. -/
def isSubstringOf (needle : Text) : Text → Bool
  | [] => needle.isEmpty
  | c :: t => List.isPrefixOf needle (c :: t) || isSubstringOf needle t

/-- `"THE END" in story.upper()` (src/adventure_bot.py line 687). -/
def containsTheEnd (story : Text) : Bool := isSubstringOf (str "THE END") (pyUpper story)

/-- `_get_fallback_story` (src/adventure_bot.py lines 633-653).  The outer
match models the `tree["start"]` subscript, which would raise `KeyError` if
the tree lacked a "start" node (`none` result); every bundled tree has one. -/
def getFallbackStory (now : Nat) (key : Text) (choice : Option Text) (theme : Text)
    (st : BotState) : Option (Text × BotState) :=
  let tree := treeFor theme
  let session := lookupS st.sessions key
  let currentNodeId := (session.bind Session.node).getD (str "start")
  match alookup tree (str "start") with
  | none => none
  | some _ =>
      let nodeId := match choice with
        | none => str "start"
        | some c => advance theme currentNodeId c
      let node := (alookup tree nodeId).getD (startNodeOf theme)
      let isTerminal := node.choices.isEmpty
      let stNew := updateSession key
        ⟨some (if isTerminal then str "finished" else str "active"), some nodeId, none, none⟩
        now st
      some (formatStoryMessage node.text node.choices, stNew)

/-- `_generate_story` (src/adventure_bot.py lines 659-697): on backend text,
derive the terminal flag from the end marker, cap the history at the last
five entries, stamp theme and status, and return the text verbatim; on
backend failure, defer to the fallback tree. -/
def generateStory (now : Nat) (llm : Option Text) (key : Text) (choice : Option Text)
    (theme : Text) (st : BotState) : Option (Text × BotState) :=
  let session := lookupS st.sessions key
  let history := (session.bind Session.history).getD []
  let newHistory : List Text := match choice with
    | none => []
    | some c => history ++ [str "chose " ++ c]
  match llm with
  | some story =>
      let isTerminal := containsTheEnd story
      let stNew := updateSession key
        ⟨some (if isTerminal then str "finished" else str "active"), none,
         some (pyLastN 5 newHistory), some theme⟩ now st
      some (story, stNew)
  | none => getFallbackStory now key choice theme st

/-! ### Command parsing helpers (Python `str` methods, ASCII inputs) -/

def pyIsSpace (c : Char) : Bool :=
  c == ' ' || c == '\t' || c == '\n' || c == '\x0b' || c == '\x0c' || c == '\r'

/-- Python `s.strip()`. -/
def pyStrip (l : Text) : Text :=
  ((l.dropWhile pyIsSpace).reverse.dropWhile pyIsSpace).reverse

/-- Python `s.lower()` (ASCII range; the command tokens are ASCII). -/
def pyLower (l : Text) : Text := l.map Char.toLower

def pyStartsWith (p l : Text) : Bool := List.isPrefixOf p l

/-- Python `s.split(maxsplit=1)`: split on runs of whitespace, keeping at
most two fields; the remainder keeps its trailing whitespace. -/
def pySplitMax1 (l : Text) : List Text :=
  let l1 := l.dropWhile pyIsSpace
  if l1.isEmpty then []
  else
    let first := l1.takeWhile (fun c => !pyIsSpace c)
    let rest := (l1.dropWhile (fun c => !pyIsSpace c)).dropWhile pyIsSpace
    if rest.isEmpty then [first] else [first, rest]

/-! ### The message handler (src/adventure_bot.py lines 703-772) -/

structure InMessage where
  sender : Text
  content : Text

def helpMsg : Text :=
  str "MCADV: !adv[theme] start, 1/2/3 choose, !quit end. Themes: fantasy scifi horror"

def noActiveMsg : Text := str "No active adventure. Type !adv to start."

def endedMsg : Text := str "Adventure ended. Type !adv to start a new one."

def statusMsg (theme : Text) : Text :=
  str "Adventure active (" ++ theme ++ str "). Enter 1, 2 or 3."

/-- The numeric-choice branch of `handle_message` (src/adventure_bot.py
lines 743-752): reject when there is no active session, else generate the
next segment and drop the session if it just finished. -/
def choiceDispatch (now : Nat) (llm : Option Text) (key tok : Text) (st : BotState) :
    Option (Option Text × BotState) :=
  match lookupS st.sessions key with
  | none => some (some noActiveMsg, st)
  | some s =>
      if s.status = some (str "active") then
        match generateStory now llm key (some tok) (s.theme.getD (str "fantasy")) st with
        | none => none
        | some (text, st1) =>
            some (some text,
              if (lookupS st1.sessions key).bind Session.status = some (str "finished")
              then clearSession key now st1 else st1)
      else some (some noActiveMsg, st)

/-- `handle_message`: strip the content, expire stale sessions, and
dispatch on the command.  Returns `none` for an uncaught Python exception
(never happens in practice), otherwise the optional response (`none` for
unrecognized input) and the next state. -/
def handleMessage (now : Nat) (llm : Option Text) (msg : InMessage) (st0 : BotState) :
    Option (Option Text × BotState) :=
  let content := pyStrip msg.content
  let contentLower := pyLower content
  let st := expireStep now st0
  let key := msg.sender
  if contentLower = str "!help" ∨ contentLower = str "help" then
    some (some helpMsg, st)
  else if pyStartsWith (str "!adv") contentLower ∨ pyStartsWith (str "!start") contentLower then
    let parts := pySplitMax1 content
    let theme := match parts with
      | _ :: arg :: _ =>
          let raw := pyLower (pyStrip arg)
          if raw ∈ VALID_THEMES then raw else str "fantasy"
      | _ => str "fantasy"
    let st1 := updateSession key
      ⟨some (str "active"), some (str "start"), some [], some theme⟩ now st
    match generateStory now llm key none theme st1 with
    | none => none
    | some (text, st2) => some (some text, st2)
  else if contentLower = str "!quit" ∨ contentLower = str "!end" ∨ contentLower = str "!stop" then
    some (some endedMsg, clearSession key now st)
  else if content = str "1" ∨ content = str "2" ∨ content = str "3" then
    choiceDispatch now llm key content st
  else if contentLower = str "!status" ∨ contentLower = str "!state" then
    match lookupS st.sessions key with
    | some s =>
        if s.status = some (str "active") then
          some (some (statusMsg (s.theme.getD (str "fantasy"))), st)
        else some (some noActiveMsg, st)
    | none => some (some noActiveMsg, st)
  else some (none, st)

/-! ### Store lemmas -/

theorem mem_expireSessions (now ttl : Nat) (store : Store) (kv : Text × Session) :
    kv ∈ expireSessions now ttl store ↔ kv ∈ store ∧ now - kv.2.lastActive ≤ ttl := by
  simp [expireSessions, List.mem_filter]

theorem lookup_none_of_not_mem_keys {α : Type} (l : List (Text × α)) (k : Text)
    (h : k ∉ l.map Prod.fst) : alookup l k = none := by
  induction l with
  | nil => rfl
  | cons kv rest ih =>
      cases kv with
      | mk k2 v =>
          simp only [List.map_cons, List.mem_cons] at h
          push_neg at h
          simp only [alookup]
          rw [if_neg (fun hh : k2 = k => h.1 hh.symm)]
          exact ih h.2

theorem keys_filter_subset (p : Text × Session → Bool) (store : Store) (x : Text)
    (hx : x ∈ (store.filter p).map Prod.fst) : x ∈ store.map Prod.fst := by
  obtain ⟨kv, hkv, rfl⟩ := List.mem_map.mp hx
  exact List.mem_map_of_mem Prod.fst (List.mem_of_mem_filter hkv)

theorem lookup_expireSessions (now ttl : Nat) (store : Store) (k : Text)
    (hnd : keysNodup store) :
    lookupS (expireSessions now ttl store) k
      = (lookupS store k).bind
          (fun s => if now - s.lastActive ≤ ttl then some s else none) := by
  induction store with
  | nil => rfl
  | cons kv rest ih =>
      cases kv with
      | mk k2 v =>
          simp only [keysNodup, List.map_cons, List.nodup_cons] at hnd
          have hnd2 : keysNodup rest := hnd.2
          have hk2 : k2 ∉ rest.map Prod.fst := hnd.1
          unfold expireSessions at ih ⊢
          rw [List.filter_cons]
          by_cases hfresh : now - v.lastActive ≤ ttl
          · rw [if_pos (by simpa using hfresh)]
            by_cases hkk : k2 = k
            · subst hkk
              show (if k2 = k2 then some v else _) = _
              rw [if_pos rfl]
              show some v = (if k2 = k2 then some v else alookup rest k2).bind _
              rw [if_pos rfl]
              show some v = if now - v.lastActive ≤ ttl then some v else none
              rw [if_pos hfresh]
            · show (if k2 = k then some v else _) = _
              rw [if_neg hkk]
              show alookup _ k = (if k2 = k then some v else alookup rest k).bind _
              rw [if_neg hkk]
              exact ih hnd2
          · rw [if_neg (by simpa using hfresh)]
            by_cases hkk : k2 = k
            · subst hkk
              have hnone : alookup (rest.filter
                  (fun kv => decide (now - kv.2.lastActive ≤ ttl))) k2 = none := by
                refine lookup_none_of_not_mem_keys _ k2 (fun hmem => hk2 ?_)
                exact keys_filter_subset _ rest k2 hmem
              show alookup _ k2 = (if k2 = k2 then some v else alookup rest k2).bind _
              rw [if_pos rfl]
              show _ = if now - v.lastActive ≤ ttl then some v else none
              rw [if_neg hfresh]
              exact hnone
            · show alookup _ k = (if k2 = k then some v else alookup rest k).bind _
              rw [if_neg hkk]
              exact ih hnd2

theorem lookup_setS_self (store : Store) (k : Text) (v : Session) :
    lookupS (setS store k v) k = some v := by
  induction store with
  | nil => simp [setS, lookupS, alookup]
  | cons kv rest ih =>
      cases kv with
      | mk k2 v2 =>
          by_cases hkk : k2 = k
          · simp [setS, hkk, lookupS, alookup]
          · simp only [setS, if_neg hkk]
            simpa [lookupS, alookup, if_neg hkk] using ih

theorem lookup_eraseS_self (store : Store) (k : Text) :
    lookupS (eraseS store k) k = none := by
  induction store with
  | nil => rfl
  | cons kv rest ih =>
      cases kv with
      | mk k2 v =>
          by_cases hkk : k2 = k
          · simpa [eraseS, hkk] using ih
          · simpa [eraseS, hkk, lookupS, alookup] using ih

theorem mem_setS (store : Store) (k : Text) (v : Session) (kv : Text × Session)
    (h : kv ∈ setS store k v) : kv ∈ store ∨ kv = (k, v) := by
  induction store with
  | nil => simpa [setS] using h
  | cons kv2 rest ih =>
      cases kv2 with
      | mk k2 v2 =>
          by_cases hkk : k2 = k
          · simp only [setS, if_pos hkk, List.mem_cons] at h
            rcases h with rfl | h
            · right; rfl
            · left; exact List.mem_cons_of_mem _ h
          · simp only [setS, if_neg hkk, List.mem_cons] at h
            rcases h with rfl | h
            · left; exact List.mem_cons_self _ _
            · rcases ih h with h2 | h2
              · left; exact List.mem_cons_of_mem _ h2
              · right; exact h2

theorem mem_eraseS (store : Store) (k : Text) (kv : Text × Session)
    (h : kv ∈ eraseS store k) : kv ∈ store := by
  induction store with
  | nil => simp [eraseS] at h
  | cons kv2 rest ih =>
      cases kv2 with
      | mk k2 v2 =>
          by_cases hkk : k2 = k
          · simp only [eraseS, if_pos hkk] at h
            exact List.mem_cons_of_mem _ (ih h)
          · simp only [eraseS, if_neg hkk, List.mem_cons] at h
            rcases h with rfl | h
            · exact List.mem_cons_self _ _
            · exact List.mem_cons_of_mem _ (ih h)

theorem saveSessions_sessions (force : Bool) (now : Nat) (st : BotState) :
    (saveSessions force now st).sessions = st.sessions := by
  unfold saveSessions
  split
  · rfl
  · split
    · rfl
    · rfl

theorem expireStep_sessions (now : Nat) (st : BotState) :
    (expireStep now st).sessions = expireSessions now SESSION_EXPIRY_SECONDS st.sessions := by
  unfold expireStep
  dsimp only
  split
  · rename_i hemp
    have hall : ∀ kv ∈ st.sessions, ¬ SESSION_EXPIRY_SECONDS < now - kv.2.lastActive := by
      intro kv hkv hlt
      have : kv ∈ st.sessions.filter
          (fun kv => decide (SESSION_EXPIRY_SECONDS < now - kv.2.lastActive)) :=
        List.mem_filter.mpr ⟨hkv, by simpa using hlt⟩
      rw [List.isEmpty_iff] at hemp
      rw [hemp] at this
      simp at this
    have hkeep : expireSessions now SESSION_EXPIRY_SECONDS st.sessions = st.sessions := by
      apply List.filter_eq_self.mpr
      intro kv hkv
      simpa using Nat.not_lt.mp (hall kv hkv)
    exact hkeep.symm
  · rw [saveSessions_sessions]

theorem lookup_clearSession_self (k : Text) (now : Nat) (st : BotState) :
    lookupS (clearSession k now st).sessions k = none := by
  unfold clearSession
  split
  · rw [saveSessions_sessions]
    exact lookup_eraseS_self st.sessions k
  · rename_i hnot
    simpa using Option.not_isSome_iff_eq_none.mp (by simpa using hnot)

theorem clearSession_sessions_cases (k : Text) (now : Nat) (st : BotState) :
    (clearSession k now st).sessions = eraseS st.sessions k
    ∨ (clearSession k now st).sessions = st.sessions := by
  unfold clearSession
  split
  · left; rw [saveSessions_sessions]
  · right; rfl

/-! ### Freshness after expiry -/

/-- Every record's `last_active` is within the expiry horizon of `now`. -/
def freshStore (now : Nat) (store : Store) : Prop :=
  ∀ kv ∈ store, now - kv.2.lastActive ≤ SESSION_EXPIRY_SECONDS

theorem fresh_expireStep (now : Nat) (st : BotState) :
    freshStore now (expireStep now st).sessions := by
  intro kv hkv
  rw [expireStep_sessions] at hkv
  exact ((mem_expireSessions now SESSION_EXPIRY_SECONDS st.sessions kv).mp hkv).2

theorem fresh_updateSession (now : Nat) (k : Text) (p : SessionPatch) (st : BotState)
    (h : freshStore now st.sessions) :
    freshStore now (updateSession k p now st).sessions := by
  intro kv hkv
  rcases mem_setS st.sessions k _ kv hkv with h2 | h2
  · exact h kv h2
  · subst h2
    simp [applyPatch]

theorem fresh_clearSession (now : Nat) (k : Text) (st : BotState)
    (h : freshStore now st.sessions) :
    freshStore now (clearSession k now st).sessions := by
  intro kv hkv
  rcases clearSession_sessions_cases k now st with he | he <;> rw [he] at hkv
  · exact h kv (mem_eraseS st.sessions k kv hkv)
  · exact h kv hkv

theorem fresh_getFallbackStory (now : Nat) (key : Text) (choice : Option Text) (theme : Text)
    (st : BotState) (text : Text) (st1 : BotState)
    (h : freshStore now st.sessions)
    (hg : getFallbackStory now key choice theme st = some (text, st1)) :
    freshStore now st1.sessions := by
  unfold getFallbackStory at hg
  dsimp only at hg
  split at hg
  · exact absurd hg (by simp)
  · simp only [Option.some.injEq, Prod.mk.injEq] at hg
    rw [← hg.2]
    exact fresh_updateSession now key _ st h

theorem fresh_generateStory (now : Nat) (llm : Option Text) (key : Text)
    (choice : Option Text) (theme : Text) (st : BotState) (text : Text) (st1 : BotState)
    (h : freshStore now st.sessions)
    (hg : generateStory now llm key choice theme st = some (text, st1)) :
    freshStore now st1.sessions := by
  unfold generateStory at hg
  dsimp only at hg
  cases llm with
  | some story =>
      simp only [Option.some.injEq, Prod.mk.injEq] at hg
      rw [← hg.2]
      exact fresh_updateSession now key _ st h
  | none => exact fresh_getFallbackStory now key choice theme st text st1 h hg

/-! ### Claim theorems: story-graph recovery, persistence, loading -/

theorem treeFor_cases (theme : Text) :
    treeFor theme = fantasyStory ∨ treeFor theme = scifiStory ∨ treeFor theme = horrorStory := by
  simp only [treeFor, FALLBACK_STORIES, alookup]
  split_ifs
  · left; rfl
  · right; left; rfl
  · right; right; rfl
  · left; rfl

theorem start_mem_treeFor (theme : Text) :
    (alookup (treeFor theme) (str "start")).isSome = true := by
  rcases treeFor_cases theme with h | h | h <;> rw [h] <;> decide

/-- C6: fallback traversal is total and recovers by substitution: an
unknown theme falls back to the fantasy graph, an unknown current node id
falls back to the graph's start node, a choice token missing from the
current node's `next` mapping yields the entry node id "start", and
`_get_fallback_story` never fails for any input. -/
theorem fallback_recovery :
    (∀ theme : Text, alookup FALLBACK_STORIES theme = none → treeFor theme = fantasyStory)
    ∧ (∀ theme current : Text, alookup (treeFor theme) current = none →
        currentNodeOf theme current = startNodeOf theme)
    ∧ (∀ theme current choice : Text,
        alookup (currentNodeOf theme current).next choice = none →
        advance theme current choice = str "start")
    ∧ (∀ (now : Nat) (key : Text) (choice : Option Text) (theme : Text) (st : BotState),
        (getFallbackStory now key choice theme st).isSome = true) := by
  refine ⟨?_, ?_, ?_, ?_⟩
  · intro theme h
    unfold treeFor
    rw [h]
    rfl
  · intro theme current h
    unfold currentNodeOf
    rw [h]
    rfl
  · intro theme current choice h
    unfold advance
    rw [h]
    rfl
  · intro now key choice theme st
    unfold getFallbackStory
    dsimp only
    cases hs : alookup (treeFor theme) (str "start") with
    | none =>
        have hsome := start_mem_treeFor theme
        rw [hs] at hsome
        simp at hsome
    | some nd => simp [hs]

/-- Witness for C6 at concrete inputs: theme "jazz" is unknown, node
"nowhere" is unknown, token "9" is not a valid choice at node "road". -/
theorem fallback_recovery_witness :
    treeFor (str "jazz") = fantasyStory
    ∧ currentNodeOf (str "fantasy") (str "nowhere") = startNodeOf (str "fantasy")
    ∧ advance (str "fantasy") (str "road") (str "9") = str "start"
    ∧ (getFallbackStory 0 (str "alice") none (str "fantasy") ⟨[], false, 0, []⟩).isSome = true :=
  ⟨fallback_recovery.1 (str "jazz") (by decide),
   fallback_recovery.2.1 (str "fantasy") (str "nowhere") (by decide),
   fallback_recovery.2.2.1 (str "fantasy") (str "road") (str "9") (by decide),
   fallback_recovery.2.2.2 0 (str "alice") none (str "fantasy") ⟨[], false, 0, []⟩⟩

/-- C8: a non-forced persist writes only when the store is dirty and at
least 5 time units have elapsed since the last write (otherwise it is a
no-op); a forced persist always writes; clearing a present key writes the
shrunken store immediately, regardless of the batching window. -/
theorem persistence_batching :
    (∀ (now : Nat) (st : BotState),
        ¬ (st.sessionsDirty = true ∧ 5 ≤ now - st.lastSessionSave) →
        saveSessions false now st = st)
    ∧ (∀ (now : Nat) (st : BotState),
        st.sessionsDirty = true → 5 ≤ now - st.lastSessionSave →
        (saveSessions false now st).savedFile = st.sessions)
    ∧ (∀ (now : Nat) (st : BotState), (saveSessions true now st).savedFile = st.sessions)
    ∧ (∀ (k : Text) (now : Nat) (st : BotState), (lookupS st.sessions k).isSome = true →
        (clearSession k now st).savedFile = eraseS st.sessions k) := by
  refine ⟨?_, ?_, ?_, ?_⟩
  · intro now st h
    unfold saveSessions
    cases hd : st.sessionsDirty with
    | false => simp [hd]
    | true =>
        have h5 : now - st.lastSessionSave < 5 := by
          rcases Nat.lt_or_ge (now - st.lastSessionSave) 5 with h2 | h2
          · exact h2
          · exact absurd ⟨hd, h2⟩ h
        simp [hd, h5]
  · intro now st hd h5
    unfold saveSessions
    rw [if_neg (by simp [hd]), if_neg (by simp; omega)]
  · intro now st
    unfold saveSessions
    rw [if_neg (by simp), if_neg (by simp)]
  · intro k now st h
    unfold clearSession
    rw [if_pos h]
    unfold saveSessions
    rw [if_neg (by simp), if_neg (by simp)]

theorem persistence_batching_witness :
    saveSessions false 3 ⟨[], true, 0, []⟩ = ⟨[], true, 0, []⟩
    ∧ (saveSessions false 10 ⟨[], true, 0, []⟩).savedFile = []
    ∧ (saveSessions true 1 ⟨[(str "b", emptySession)], false, 0, []⟩).savedFile
        = [(str "b", emptySession)]
    ∧ (clearSession (str "a") 1 ⟨[(str "a", emptySession)], false, 0, []⟩).savedFile
        = eraseS [(str "a", emptySession)] (str "a") :=
  ⟨persistence_batching.1 3 ⟨[], true, 0, []⟩ (by decide),
   persistence_batching.2.1 10 ⟨[], true, 0, []⟩ (by decide) (by decide),
   persistence_batching.2.2.1 1 ⟨[(str "b", emptySession)], false, 0, []⟩,
   persistence_batching.2.2.2 (str "a") 1 ⟨[(str "a", emptySession)], false, 0, []⟩ (by decide)⟩

/-- C9 (amended): a missing file, an unreadable file (`OSError`), or a file
with invalid JSON yields an empty store without raising, and a valid file
yields its decoded contents; but a file whose bytes do not decode as UTF-8
raises (see `load_resilience_cex`). -/
theorem load_resilience :
    loadSessions FileState.missing = Except.ok []
    ∧ loadSessions FileState.unreadable = Except.ok []
    ∧ loadSessions FileState.badJson = Except.ok []
    ∧ (∀ s : Store, loadSessions (FileState.valid s) = Except.ok s) :=
  ⟨rfl, rfl, rfl, fun _ => rfl⟩

/-- C9 counterexample: for the file state "bytes that are not valid UTF-8",
`_load_sessions` raises `UnicodeDecodeError` to the caller (it is a
`ValueError`, not a `json.JSONDecodeError` or `OSError`, so the except
clause does not catch it), refuting "never raises, for every possible file
state". -/
theorem load_resilience_cex :
    loadSessions FileState.notUtf8 = Except.error (str "UnicodeDecodeError") := rfl

theorem fresh_choiceDispatch (now : Nat) (llm : Option Text) (key tok : Text)
    (st : BotState) (resp : Option Text) (st1 : BotState)
    (h : freshStore now st.sessions)
    (hrun : choiceDispatch now llm key tok st = some (resp, st1)) :
    freshStore now st1.sessions := by
  unfold choiceDispatch at hrun
  split at hrun
  · simp only [Option.some.injEq, Prod.mk.injEq] at hrun
    rw [← hrun.2]
    exact h
  · split at hrun
    · split at hrun
      · exact absurd hrun (by simp)
      · rename_i gtext gst hg
        have hG : freshStore now gst.sessions :=
          fresh_generateStory now llm key _ _ st gtext gst h hg
        simp only [Option.some.injEq, Prod.mk.injEq] at hrun
        rw [← hrun.2]
        split
        · exact fresh_clearSession now key gst hG
        · exact hG
    · simp only [Option.some.injEq, Prod.mk.injEq] at hrun
      rw [← hrun.2]
      exact h

/-- C7: `expire(now, ttl)` keeps exactly the records whose `last_active` is
within `ttl` of `now` (a record is removed iff it is strictly older than
`now - ttl`), and since `handle_message` expires before dispatching and
every dispatch write stamps `last_active = now`, after handling any inbound
command every remaining record is within the expiry horizon. -/
theorem expiry_semantics :
    (∀ (now ttl : Nat) (store : Store) (kv : Text × Session),
        kv ∈ expireSessions now ttl store ↔ kv ∈ store ∧ now - kv.2.lastActive ≤ ttl)
    ∧ (∀ (now : Nat) (llm : Option Text) (msg : InMessage) (st0 : BotState)
        (resp : Option Text) (st1 : BotState),
        handleMessage now llm msg st0 = some (resp, st1) →
        ∀ kv ∈ st1.sessions, now - kv.2.lastActive ≤ SESSION_EXPIRY_SECONDS) := by
  refine ⟨mem_expireSessions, ?_⟩
  intro now llm msg st0 resp st1 hrun
  unfold handleMessage at hrun
  dsimp only at hrun
  have hfreshE : freshStore now (expireStep now st0).sessions := fresh_expireStep now st0
  split at hrun
  · -- !help
    simp only [Option.some.injEq, Prod.mk.injEq] at hrun
    rw [← hrun.2]
    exact hfreshE
  · split at hrun
    · -- !adv / !start
      split at hrun
      · exact absurd hrun (by simp)
      · rename_i gtext gst hg
        simp only [Option.some.injEq, Prod.mk.injEq] at hrun
        rw [← hrun.2]
        exact fresh_generateStory now llm msg.sender none _ _ gtext gst
          (fresh_updateSession now msg.sender _ _ hfreshE) hg
    · split at hrun
      · -- !quit / !end / !stop
        simp only [Option.some.injEq, Prod.mk.injEq] at hrun
        rw [← hrun.2]
        exact fresh_clearSession now msg.sender _ hfreshE
      · split at hrun
        · -- numeric choice
          exact fresh_choiceDispatch now llm msg.sender _ _ resp st1 hfreshE hrun
        · split at hrun
          · -- !status / !state
            split at hrun
            · rename_i s hs
              split at hrun <;>
                · simp only [Option.some.injEq, Prod.mk.injEq] at hrun
                  rw [← hrun.2]
                  exact hfreshE
            · simp only [Option.some.injEq, Prod.mk.injEq] at hrun
              rw [← hrun.2]
              exact hfreshE
          · -- unrecognized
            simp only [Option.some.injEq, Prod.mk.injEq] at hrun
            rw [← hrun.2]
            exact hfreshE

theorem expiry_semantics_witness :
    ((str "a", (⟨none, none, none, none, 95⟩ : Session))
      ∈ expireSessions 100 20 [(str "a", ⟨none, none, none, none, 95⟩)])
    ∧ (∀ kv ∈ (((handleMessage 100 none ⟨str "a", str "!help"⟩ ⟨[], false, 0, []⟩).getD
        (none, ⟨[], false, 0, []⟩)).2).sessions,
        100 - kv.2.lastActive ≤ SESSION_EXPIRY_SECONDS) := by
  constructor
  · exact (expiry_semantics.1 100 20 _ _).mpr ⟨by decide, by decide⟩
  · cases heq : handleMessage 100 none ⟨str "a", str "!help"⟩ ⟨[], false, 0, []⟩ with
    | none =>
        intro kv hkv
        simp at hkv
    | some p =>
        intro kv hkv
        simp only [Option.getD_some] at hkv
        exact expiry_semantics.2 100 none ⟨str "a", str "!help"⟩ ⟨[], false, 0, []⟩ p.1 p.2
          (by rw [heq]) kv hkv

/-! ### Claim theorems: session finish and the no-active response -/

theorem choiceDispatch_not_finished (now : Nat) (llm : Option Text) (key tok : Text)
    (st : BotState) (resp : Option Text) (st1 : BotState)
    (hact : lookupS st.sessions key = none
        ∨ (lookupS st.sessions key).bind Session.status = some (str "active"))
    (hrun : choiceDispatch now llm key tok st = some (resp, st1)) :
    ¬ (lookupS st1.sessions key).bind Session.status = some (str "finished") := by
  unfold choiceDispatch at hrun
  cases hlk : lookupS st.sessions key with
  | none =>
      rw [hlk] at hrun
      simp only [Option.some.injEq, Prod.mk.injEq] at hrun
      rw [← hrun.2, hlk]
      simp
  | some s =>
      rw [hlk] at hrun
      dsimp only at hrun
      have hst : s.status = some (str "active") := by
        rcases hact with hact | hact
        · rw [hact] at hlk
          cases hlk
        · rw [hlk] at hact
          simpa using hact
      rw [if_pos hst] at hrun
      cases hg : generateStory now llm key (some tok) (s.theme.getD (str "fantasy")) st with
      | none =>
          rw [hg] at hrun
          exact absurd hrun (by simp)
      | some p =>
          obtain ⟨gtext, gst⟩ := p
          rw [hg] at hrun
          simp only [Option.some.injEq, Prod.mk.injEq] at hrun
          rw [← hrun.2]
          by_cases hfin : (lookupS gst.sessions key).bind Session.status = some (str "finished")
          · rw [if_pos hfin, lookup_clearSession_self]
            simp
          · rw [if_neg hfin]
            exact hfin

theorem choiceDispatch_no_active (now : Nat) (llm : Option Text) (key tok : Text)
    (st : BotState) (resp : Option Text) (st1 : BotState)
    (hinact : match lookupS st.sessions key with
        | none => True
        | some s => ¬ s.status = some (str "active"))
    (hrun : choiceDispatch now llm key tok st = some (resp, st1)) :
    resp = some noActiveMsg ∧ st1 = st := by
  unfold choiceDispatch at hrun
  cases hlk : lookupS st.sessions key with
  | none =>
      rw [hlk] at hrun
      simp only [Option.some.injEq, Prod.mk.injEq] at hrun
      exact ⟨hrun.1.symm, hrun.2.symm⟩
  | some s =>
      rw [hlk] at hrun
      rw [hlk] at hinact
      dsimp only at hrun hinact
      rw [if_neg hinact] at hrun
      simp only [Option.some.injEq, Prod.mk.injEq] at hrun
      exact ⟨hrun.1.symm, hrun.2.symm⟩

/-- Lookup in the post-expiry store, phrased through the pre store. -/
theorem lookup_expireStep (now : Nat) (st0 : BotState) (k : Text)
    (hnodup : keysNodup st0.sessions) :
    lookupS (expireStep now st0).sessions k
      = (lookupS st0.sessions k).bind
          (fun s => if now - s.lastActive ≤ SESSION_EXPIRY_SECONDS then some s else none) := by
  rw [expireStep_sessions]
  exact lookup_expireSessions now SESSION_EXPIRY_SECONDS st0.sessions k hnodup

/-- A successful dict lookup returns an entry of the dict. -/
theorem lookupS_mem (store : Store) (k : Text) (s : Session)
    (h : lookupS store k = some s) : (k, s) ∈ store := by
  induction store with
  | nil => simp [lookupS, alookup] at h
  | cons kv rest ih =>
      cases kv with
      | mk k2 v =>
          simp only [lookupS, alookup] at h ih
          split at h
          · rename_i hkk
            subst hkk
            simp only [Option.some.injEq] at h
            subst h
            exact List.mem_cons_self _ _
          · exact List.mem_cons_of_mem _ (ih h)

/-- C2 (amended): after a numeric-choice command whose session key had no
record or an active record, no record with status "finished" remains under
that key — a session finished during handling (terminal node or generated
end marker) is cleared.  The amendment excludes pre-existing finished
records: a start command whose generated text contains the end marker
leaves a "finished" record in the store (see `finished_removed_cex`).
The no-record-or-active condition is stated entry-wise over the store
(every entry stored under the key is active), which for a Python dict —
at most one entry per key — is exactly "no record, or an active record",
and needs no key-uniqueness side condition. -/
theorem finished_removed_choice (now : Nat) (llm : Option Text) (msg : InMessage)
    (st0 : BotState)
    (hdigit : pyStrip msg.content = str "1" ∨ pyStrip msg.content = str "2"
        ∨ pyStrip msg.content = str "3")
    (hact : ∀ kv ∈ st0.sessions, kv.1 = msg.sender → kv.2.status = some (str "active"))
    (resp : Option Text) (st1 : BotState)
    (hrun : handleMessage now llm msg st0 = some (resp, st1)) :
    ¬ (lookupS st1.sessions msg.sender).bind Session.status = some (str "finished") := by
  unfold handleMessage at hrun
  dsimp only at hrun
  have hactE : lookupS (expireStep now st0).sessions msg.sender = none
      ∨ (lookupS (expireStep now st0).sessions msg.sender).bind Session.status
          = some (str "active") := by
    cases hlk : lookupS (expireStep now st0).sessions msg.sender with
    | none => left; rfl
    | some s =>
        right
        have hmem : (msg.sender, s) ∈ (expireStep now st0).sessions :=
          lookupS_mem _ _ _ hlk
        rw [expireStep_sessions] at hmem
        have hmem0 : (msg.sender, s) ∈ st0.sessions :=
          ((mem_expireSessions now SESSION_EXPIRY_SECONDS st0.sessions _).mp hmem).1
        have hst := hact (msg.sender, s) hmem0 rfl
        simp only [Option.some_bind]
        exact hst
  rcases hdigit with h | h | h
  all_goals rw [h] at hrun
  all_goals rw [if_neg (by decide), if_neg (by decide), if_neg (by decide),
    if_pos (by decide)] at hrun
  all_goals exact choiceDispatch_not_finished now llm msg.sender _ _ resp st1 hactE hrun

/-- C2 counterexample: a start command whose generated text already
contains the end marker leaves a record with status "finished" in the
store after `handle_message` returns, refuting the claim that no finished
record remains after any inbound command. -/
theorem finished_removed_cex :
    ((handleMessage 100 (some (str "You perish instantly. THE END"))
        ⟨str "alice", str "!adv"⟩ ⟨[], false, 0, []⟩).map
        (fun p => (lookupS p.2.sessions (str "alice")).bind Session.status))
      = some (some (str "finished")) := by decide

theorem finished_removed_witness :
    ¬ (lookupS (((handleMessage 100 none ⟨str "bob", str "1"⟩
        ⟨[(str "bob", ⟨some (str "active"), some (str "road"), some [], some (str "fantasy"), 100⟩)],
         false, 0, []⟩).getD
        (none, ⟨[], false, 0, []⟩)).2.sessions) (str "bob")).bind Session.status
      = some (str "finished") := by
  cases heq : handleMessage 100 none ⟨str "bob", str "1"⟩
      ⟨[(str "bob", ⟨some (str "active"), some (str "road"), some [], some (str "fantasy"), 100⟩)],
       false, 0, []⟩ with
  | none => simp only [Option.getD_none]; decide
  | some p =>
      simp only [Option.getD_some]
      exact finished_removed_choice 100 none ⟨str "bob", str "1"⟩ _
        (by decide) (by decide) p.1 p.2 heq

/-- C10 (amended): a numeric choice sent under a key with no record, or a
record that is both inactive and still within the expiry window, gets the
fixed "No active adventure" response and leaves the store unchanged for
that key.  The amendment adds the within-window condition: an inactive
record that has already expired is removed by the expiry sweep that runs
before dispatch (see `no_active_cex`). -/
theorem no_active_response (now : Nat) (llm : Option Text) (msg : InMessage)
    (st0 : BotState) (hnodup : keysNodup st0.sessions)
    (hdigit : pyStrip msg.content = str "1" ∨ pyStrip msg.content = str "2"
        ∨ pyStrip msg.content = str "3")
    (hinact : match lookupS st0.sessions msg.sender with
        | none => True
        | some s => ¬ s.status = some (str "active")
            ∧ now - s.lastActive ≤ SESSION_EXPIRY_SECONDS)
    (resp : Option Text) (st1 : BotState)
    (hrun : handleMessage now llm msg st0 = some (resp, st1)) :
    resp = some noActiveMsg
      ∧ lookupS st1.sessions msg.sender = lookupS st0.sessions msg.sender := by
  unfold handleMessage at hrun
  dsimp only at hrun
  have hlkE : lookupS (expireStep now st0).sessions msg.sender
      = lookupS st0.sessions msg.sender := by
    rw [lookup_expireStep now st0 msg.sender hnodup]
    cases hl0 : lookupS st0.sessions msg.sender with
    | none => rfl
    | some s0 =>
        rw [hl0] at hinact
        simp only [Option.some_bind]
        rw [if_pos hinact.2]
  have hinactE : match lookupS (expireStep now st0).sessions msg.sender with
      | none => True
      | some s => ¬ s.status = some (str "active") := by
    rw [hlkE]
    cases hl0 : lookupS st0.sessions msg.sender with
    | none => trivial
    | some s0 =>
        rw [hl0] at hinact
        exact hinact.1
  rcases hdigit with h | h | h
  all_goals rw [h] at hrun
  all_goals rw [if_neg (by decide), if_neg (by decide), if_neg (by decide),
    if_pos (by decide)] at hrun
  all_goals
    obtain ⟨hresp, hst⟩ :=
      choiceDispatch_no_active now llm msg.sender _ _ resp st1 hinactE hrun
  all_goals exact ⟨hresp, by rw [hst, hlkE]⟩

/-- C10 counterexample: under the claim's own condition (a record whose
status is not "active"), the record can additionally be stale; then the
expiry sweep removes it during handling, so the store is NOT left unchanged
for that key even though the fixed response is produced. -/
theorem no_active_cex :
    (((handleMessage 10000 none ⟨str "alice", str "1"⟩
        ⟨[(str "alice", ⟨some (str "finished"), none, none, none, 0⟩)], false, 3, []⟩).map
        (fun p => (p.1, lookupS p.2.sessions (str "alice"))))
      = some (some noActiveMsg, none))
    ∧ lookupS [(str "alice", (⟨some (str "finished"), none, none, none, 0⟩ : Session))]
        (str "alice") = some ⟨some (str "finished"), none, none, none, 0⟩ := by
  constructor
  · decide
  · decide

theorem no_active_witness :
    ((handleMessage 5 none ⟨str "carol", str "2"⟩ ⟨[], false, 0, []⟩).getD
        (some noActiveMsg, ⟨[], false, 0, []⟩)).1 = some noActiveMsg := by
  cases heq : handleMessage 5 none ⟨str "carol", str "2"⟩ ⟨[], false, 0, []⟩ with
  | none => rfl
  | some p =>
      simp only [Option.getD_some]
      exact (no_active_response 5 none ⟨str "carol", str "2"⟩ ⟨[], false, 0, []⟩
        (by decide) (by decide) (by trivial) p.1 p.2 heq).1

theorem chunk_roundtrip_witness :
    (stripFrames (sendReplyFrames (List.replicate 30 'x') 12)).flatten
      = List.replicate 30 'x' :=
  chunk_roundtrip (List.replicate 30 'x') 12 (by decide)

theorem chunk_minimality_witness :
    (sendReplyFrames (List.replicate 450 'A') 230).length
      ≤ ([List.replicate 224 'A', List.replicate 224 'A', List.replicate 2 'A'] : List Text).length :=
  chunk_minimality (List.replicate 450 'A') 230 (by decide) (by decide)
    [List.replicate 224 'A', List.replicate 224 'A', List.replicate 2 'A'] (by decide) (by decide)

theorem chunk_size_bound_witness :
    ((sendReplyFrames (List.replicate 30 'x') 12).headD []).length ≤ 12 := by
  cases hf : sendReplyFrames (List.replicate 30 'x') 12 with
  | nil => simp
  | cons a t =>
      have h := chunk_size_bound (List.replicate 30 'x') 12 (by decide) (by decide) a
        (by rw [hf]; exact List.mem_cons_self a t)
      simpa [hf] using h

end MCADV
